import Mathlib

/-!
Verification of `checkio_docker/parser.py` (mission files compiler).

Python strings are modelled as `List Char` (`PyStr`) so that the string
operations the parser uses (`split(sep, 1)`, `strip()`, `readline()`,
`in`) can be given faithful executable definitions and reasoned about by
induction.
-/

namespace CheckioDocker

abbrev PyStr := List Char

/-- Python whitespace characters recognised by `str.strip()`. -/
def pyIsSpace (c : Char) : Bool :=
  c = ' ' ∨ c = '\t' ∨ c = '\n' ∨ c = '\r' ∨ c = '\x0c' ∨ c = '\x0b'

/-- Python `str.strip()`: drop whitespace from both ends. -/
def pyStrip (s : PyStr) : PyStr :=
  ((s.dropWhile pyIsSpace).reverse.dropWhile pyIsSpace).reverse

/-- Python `c in s` for a single character. -/
def pyContains (s : PyStr) (c : Char) : Bool := s.contains c

/-- Python `s.split(c, 1)` for a one-character separator: `none` when the
separator does not occur (Python returns the one-element list `[s]`),
otherwise the parts before and after the first occurrence. -/
def splitOnce (c : Char) : PyStr → Option (PyStr × PyStr)
  | [] => none
  | x :: xs =>
    if x = c then some ([], xs)
    else (splitOnce c xs).map (fun p => (x :: p.1, p.2))

/-- Python `f.readline()` on the whole file content: everything up to and
including the first newline (the whole content when there is none). -/
def pyReadline : PyStr → PyStr
  | [] => []
  | x :: xs => if x = '\n' then [x] else x :: pyReadline xs

/-- The error raised by the compiler (`MissionFilesException`), with the
message used at the raise site. -/
inductive MissionFilesException where
  | schemaFileIsEmpty
  | schemaContentIsWrong
  deriving Repr, DecidableEq

/-- A parsed base-repository reference: `{'url': ..., 'branch': ...}`. -/
structure RepoRef where
  url : PyStr
  branch : Option PyStr
  deriving Repr, DecidableEq

/-- `_MissionFilesCompiler.get_base_repository`.  The filesystem access is
abstracted into the argument: `none` when the `schema` file does not exist,
`some content` for its full text.  Mirrors the source line by line:
read the first line, fail on an empty read, split on the first `;`,
fail when there is no `;`, strip the second part, and split away an
`@branch` suffix unless the part after `@` contains a `:`. -/
def get_base_repository (schemaFile : Option PyStr) :
    Except MissionFilesException (Option RepoRef) :=
  match schemaFile with
  | none => .ok none
  | some fileText =>
    let content := pyReadline fileText
    if content = [] then
      .error .schemaFileIsEmpty
    else
      match splitOnce ';' content with
      | none => .error .schemaContentIsWrong
      | some parts =>
        let url := pyStrip parts.2
        if pyContains url '@' then
          match splitOnce '@' url with
          | none => .ok (some ⟨url, none⟩)
          | some repoParts =>
            if ¬ pyContains repoParts.2 ':' then
              .ok (some ⟨pyStrip repoParts.1, some (pyStrip repoParts.2)⟩)
            else
              .ok (some ⟨url, none⟩)
        else
          .ok (some ⟨url, none⟩)

/-!
Compilation pipeline model (`compile_from_files`, `download_base_repositories`,
`compile_from_git`).

The working tree is modelled as a partial map from file paths to file
contents (`Fs`).  Reading a schema from a fetched directory and cloning a
repository touch the real filesystem and network, so they are abstracted
into oracles `gB` (one `get_base_repository` call on a materialised source)
and `gP` (one `git_pull`).  Temporary directories created by
`tempfile.mkdtemp` are identified by consecutive naturals; `TmpState`
tracks the next fresh identifier and the list of directories currently on
disk, so that creation/deletion on every control path can be stated.
-/

abbrev Path := String

abbrev Fs := Path → Option String

/-- A repository reference (the `{'url':…, 'branch':…}` dict), abstract. -/
abbrev Repo := Nat

/-- Modelled from the spec: `recursive_overwrite` lives in
`checkio_docker/utils.py`, which is not part of the sources here; the spec
describes copy overlay as "recursively copy every file/directory from
source into destination, unconditionally overwriting existing destination
files".  On path-to-content maps that is: the source's entry when it has
one, otherwise the destination's. -/
def recursive_overwrite (src dst : Fs) : Fs :=
  fun p => match src p with
           | some c => some c
           | none => dst p

/-- Errors that abort a compilation in this model. -/
inductive CompileError where
  | sourceUnavailable
  | schemaMalformed
  | outOfFuel
  deriving Repr, DecidableEq

/-- State of the `tempfile.mkdtemp` / `shutil.rmtree` lifecycle: `next` is
the next fresh directory identifier, `live` the directories currently on
disk in creation order. -/
structure TmpState where
  next : Nat
  live : List Nat
  deriving Repr, DecidableEq

/-- `tempfile.mkdtemp()`: returns a fresh directory and records it. -/
def mkdtemp (s : TmpState) : Nat × TmpState :=
  (s.next, ⟨s.next + 1, s.live ++ [s.next]⟩)

/-- `shutil.rmtree(d)`: the directory is removed from disk. -/
def rmtree (d : Nat) (s : TmpState) : TmpState :=
  ⟨s.next, s.live.erase d⟩

/-- All live temporary directories have already been allocated. -/
def TmpWF (s : TmpState) : Prop := ∀ d ∈ s.live, d < s.next

instance (s : TmpState) : Decidable (TmpWF s) := by
  unfold TmpWF; infer_instance

/-- The `while repository is not None` loop of
`_MissionFilesCompiler.download_base_repositories`: make a temporary
directory, `git_pull` the repository into it (`gP`), append it, and read
the next base repository from the fetched snapshot (`gB`).  `fuel` bounds
the number of iterations (the source has no cycle guard); exhausting it is
reported as `outOfFuel`.  On an oracle failure the exception propagates
with the temporary directories created so far still on disk. -/
def downloadLoop (gB : Fs → Except CompileError (Option Repo))
    (gP : Repo → Except CompileError Fs) :
    Nat → Option Repo → List (Nat × Fs) → TmpState →
      Except CompileError (List (Nat × Fs)) × TmpState
  | _, none, acc, st => (.ok acc, st)
  | 0, some _, _, st => (.error .outOfFuel, st)
  | fuel + 1, some repo, acc, st =>
    let d := (mkdtemp st).1
    let st1 := (mkdtemp st).2
    match gP repo with
    | .error e => (.error e, st1)
    | .ok src =>
      match gB src with
      | .error e => (.error e, st1)
      | .ok nextRepo => downloadLoop gB gP fuel nextRepo (acc ++ [(d, src)]) st1

/-- `_MissionFilesCompiler.download_base_repositories`: read the leaf's
base repository and run the fetch loop.  Returns the fetched ancestor
snapshots as (temporary directory, contents) pairs in discovery order
(nearest ancestor first). -/
def download_base_repositories (gB : Fs → Except CompileError (Option Repo))
    (gP : Repo → Except CompileError Fs) (fuel : Nat) (src : Fs) (st : TmpState) :
    Except CompileError (List (Nat × Fs)) × TmpState :=
  match gB src with
  | .error e => (.error e, st)
  | .ok r => downloadLoop gB gP fuel r [] st

/-- The overlay phase of `_MissionFilesCompiler.compile_from_files`
(`use_link=False`): download the base repositories, apply them to the
working directory in reversed (oldest-first) order — deleting each
snapshot right after it is merged — and finally copy the leaf source's
own files on top.  The subsequent steps (`get_active_envs`,
`filter_envs`, `make_dockerfile`) only rewrite the `verification/`
subtree and are modelled separately below. -/
def compile_from_files (gB : Fs → Except CompileError (Option Repo))
    (gP : Repo → Except CompileError Fs) (fuel : Nat)
    (sourceFs : Fs) (working : Fs) (st : TmpState) :
    Except CompileError Fs × TmpState :=
  match download_base_repositories gB gP fuel sourceFs st with
  | (.error e, st1) => (.error e, st1)
  | (.ok repos, st1) =>
    let merged := repos.reverse.foldl
      (fun (acc : Fs × TmpState) p => (recursive_overwrite p.2 acc.1, rmtree p.1 acc.2))
      (working, st1)
    (.ok (recursive_overwrite sourceFs merged.1), merged.2)

/-- `_MissionFilesCompiler.compile_from_git`: make a temporary directory
for the leaf, `git_pull` the requested repository into it, run
`compile_from_files`, and delete the leaf directory in a `finally`
block (on the exception path as well as the return path). -/
def compile_from_git (gB : Fs → Except CompileError (Option Repo))
    (gP : Repo → Except CompileError Fs) (fuel : Nat)
    (repository : Repo) (working : Fs) (st : TmpState) :
    Except CompileError Fs × TmpState :=
  let d := (mkdtemp st).1
  let st1 := (mkdtemp st).2
  match gP repository with
  | .error e => (.error e, rmtree d st1)
  | .ok src =>
    let r := compile_from_files gB gP fuel src working st1
    (r.1, rmtree d r.2)

/-- Content of the latest layer in `layers` that defines path `p`
(`none` when no layer defines it). -/
def lastDefined (layers : List Fs) (p : Path) : Option String :=
  (layers.filterMap (fun l => l p)).getLast?

/-! Concrete instances used by the witnesses and the counterexample. -/

/-- An empty working directory. -/
def wEmptyFs : Fs := fun _ => none

/-- A leaf source with a schema marker and a file `f`. -/
def wLeafFs : Fs :=
  fun p => if p = "schema" then some "sch" else if p = "f" then some "leaf" else none

/-- An ancestor source with no schema and a file `f`. -/
def wAncFs : Fs := fun p => if p = "f" then some "anc" else none

/-- Schema oracle: sources containing a `schema` file inherit from
repository `1`; others have no ancestor. -/
def wGB : Fs → Except CompileError (Option Repo) :=
  fun s => if (s "schema").isSome then .ok (some 1) else .ok none

/-- Fetch oracle: repository `0` is the leaf `wLeafFs`, every other
repository materialises as `wAncFs`. -/
def wGP : Repo → Except CompileError Fs :=
  fun r => if r = 0 then .ok wLeafFs else .ok wAncFs

/-- A middle ancestor that itself declares a further ancestor. -/
def wMidFs : Fs :=
  fun p => if p = "schema2" then some "sch2" else if p = "f" then some "mid" else none

/-- Schema oracle for the failing chain: the leaf points at repository `1`,
`wMidFs` points at repository `2`. -/
def wGB2 : Fs → Except CompileError (Option Repo) :=
  fun s =>
    if (s "schema").isSome then .ok (some 1)
    else if (s "schema2").isSome then .ok (some 2)
    else .ok none

/-- Fetch oracle for the failing chain: repository `2` is unreachable. -/
def wGP2 : Repo → Except CompileError Fs :=
  fun r =>
    if r = 0 then .ok wLeafFs
    else if r = 1 then .ok wMidFs
    else .error .sourceUnavailable

/-!
Environment filtering and descriptor generation
(`get_active_envs`, `filter_envs`, `make_dockerfile`).
-/

/-- `_MissionFilesCompiler.get_active_envs`:
`os.listdir(self.path_initial)`, the entry names under the merged
`initial/` directory. -/
def get_active_envs (initialListing : List String) : List String :=
  initialListing

/-- `_MissionFilesCompiler.filter_envs`, acting on the listing of
`verification/envs/`: every subdirectory whose name is not in
`active_envs` is deleted (`shutil.rmtree`); the others survive in
listing order. -/
def filter_envs (active_envs : List String) (envsListing : List String) :
    List String :=
  envsListing.filter (fun env => active_envs.contains env)

/-- `os.path.join` with a single separator. -/
def pjoin (a b : String) : String := a ++ "/" ++ b

/-- The literal placeholder `\x7b\x7benv\x7d\x7d`. -/
def envPlaceholder : String := "\x7b\x7benv\x7d\x7d"

/-- The literal placeholder `\x7b\x7benv_instructions\x7d\x7d`. -/
def envInstructionsPlaceholder : String := "\x7b\x7benv_instructions\x7d\x7d"

/-- `_MissionFilesCompiler.DOCKER_MAIN_FILENAME`. -/
def DOCKER_MAIN_FILENAME : String := "Dockertemplate"

/-- `_MissionFilesCompiler.DOCKER_ENV_FILENAME`. -/
def DOCKER_ENV_FILENAME : String := "Dockerenv"

/-- `_MissionFilesCompiler.make_dockerfile`: for each active environment
read `verification/envs/<env>/Dockerenv`, substitute every occurrence of
the `env` placeholder with the environment name, join the fragments with
newlines, substitute the result for the `env_instructions` placeholder of
`verification/Dockertemplate`, and write `verification/Dockerfile`
(truncating any existing file).  `_get_file_content` raises `IOError`
when a file is absent, modelled by `none`. -/
def make_dockerfile (path_verification : String) (active_envs : List String)
    (fs : Fs) : Option Fs := do
  let envs_docker ← active_envs.mapM (fun env =>
    (fs (pjoin (pjoin (pjoin path_verification "envs") env) DOCKER_ENV_FILENAME)).map
      (fun docker_env_content => docker_env_content.replace envPlaceholder env))
  let docker_main ← fs (pjoin path_verification DOCKER_MAIN_FILENAME)
  let outText := docker_main.replace envInstructionsPlaceholder
    (String.intercalate "\n" envs_docker)
  pure (fun q => if q = pjoin path_verification "Dockerfile" then some outText else fs q)

/-!
Link overlay (`get_folder_config` and `relink_tree`).

Directory trees are modelled structurally.  A destination `linkFile`
entry is a symbolic link to a regular file; it records the link target
path and the target's content, because `os.path.isfile` and `open`
follow links.  The YAML parser is an external collaborator, passed in as
`yamlLoad`.
-/

/-- A source-tree entry (git checkouts and mission folders hold plain
files and directories). -/
inductive SrcEntry where
  | file (content : String)
  | dir (children : List (String × SrcEntry))

/-- A destination-tree entry. -/
inductive DstEntry where
  | file (content : String)
  | dir (children : List (String × DstEntry))
  | linkFile (target : List String) (content : String)

/-- What `yaml.load` returns for a `.folder` file: `null` for an empty
document, otherwise a mapping with an optional `replace` list. -/
inductive Yaml where
  | null
  | dict (replaceKey : Option (List String))

/-- Errors that abort `relink_tree`: the `assert` on a file/directory
kind mismatch, and the `TypeError` from `'replace' not in None`. -/
inductive RelinkError where
  | assertionError
  | typeError
  deriving Repr, DecidableEq

/-- `os.path.isfile` on a source entry. -/
def isfileS : SrcEntry → Bool
  | .file _ => true
  | .dir _ => false

/-- `os.path.isfile` on a destination entry (follows symlinks). -/
def isfileD : DstEntry → Bool
  | .file _ => true
  | .dir _ => false
  | .linkFile _ _ => true

/-- Look a name up in a directory listing. -/
def lookupEntry (name : String) : List (String × DstEntry) → Option DstEntry
  | [] => none
  | (k, v) :: rest => if k = name then some v else lookupEntry name rest

/-- `os.remove` / in-place replacement: drop every entry with this name. -/
def eraseEntry (name : String) (l : List (String × DstEntry)) :
    List (String × DstEntry) :=
  l.filter (fun kv => kv.1 != name)

/-- `get_folder_config`: open `dst/.folder` and parse it with the external
YAML parser; a missing file raises `IOError`, caught and turned into the
empty mapping `{}` (opening a directory also raises an `IOError`
subclass). -/
def get_folder_config (yamlLoad : String → Yaml)
    (dst : List (String × DstEntry)) : Yaml :=
  match lookupEntry ".folder" dst with
  | some (.file c) => yamlLoad c
  | some (.linkFile _ c) => yamlLoad c
  | some (.dir _) => .dict none
  | none => .dict none

/-- The conflict check of `relink_tree` for an existing destination file:
`name != '.folder' and ('replace' not in config or name not in
config['replace'])`.  Returns whether the replacement warning is logged;
when the config is YAML `null`, Python raises `TypeError` from
`'replace' not in None`. -/
def relinkWarnCheck (config : Yaml) (name : String) : Except RelinkError Bool :=
  if name = ".folder" then .ok false
  else
    match config with
    | .null => .error .typeError
    | .dict none => .ok true
    | .dict (some repl) => .ok (! repl.contains name)

/-- The entries `relink_tree` always skips. -/
def skipNames : List String := [".git", ".gitignore"]

mutual

/-- The tail of the `relink_tree` loop body after existence handling:
recurse for a source directory (`os.mkdir` when the destination entry is
absent), create a symlink for anything else. -/
def relinkTail (yamlLoad : String → Yaml) (srcPath dstPath : List String)
    (name : String) (se : SrcEntry) (dst : List (String × DstEntry)) :
    Except RelinkError (List (String × DstEntry) × List (List String)) :=
  match se with
  | .file c => .ok (dst ++ [(name, .linkFile (srcPath ++ [name]) c)], [])
  | .dir ch =>
    let subDst := match lookupEntry name dst with
                  | some (.dir dch) => dch
                  | _ => []
    match relinkList yamlLoad (srcPath ++ [name]) (dstPath ++ [name])
        (get_folder_config yamlLoad subDst) ch subDst with
    | .error e => .error e
    | .ok (newCh, ws) => .ok (eraseEntry name dst ++ [(name, .dir newCh)], ws)
termination_by 2 * sizeOf se
decreasing_by simp_wf

/-- One iteration of the `relink_tree` loop: when a destination entry of
the same name exists, assert the file/directory kinds agree, and for a
plain file run the conflict check (possibly logging a warning) and remove
it before relinking. -/
def relinkOne (yamlLoad : String → Yaml) (srcPath dstPath : List String)
    (config : Yaml) (name : String) (se : SrcEntry)
    (dst : List (String × DstEntry)) :
    Except RelinkError (List (String × DstEntry) × List (List String)) :=
  match lookupEntry name dst with
  | some de =>
    if isfileD de = isfileS se then
      if isfileD de then
        match relinkWarnCheck config name with
        | .error e => .error e
        | .ok warned =>
          match relinkTail yamlLoad srcPath dstPath name se (eraseEntry name dst) with
          | .error e => .error e
          | .ok (dst2, w2) =>
            .ok (dst2, (if warned then [dstPath ++ [name]] else []) ++ w2)
      else
        relinkTail yamlLoad srcPath dstPath name se dst
    else .error .assertionError
  | none => relinkTail yamlLoad srcPath dstPath name se dst
termination_by 2 * sizeOf se + 1
decreasing_by all_goals simp_wf

/-- The `for name in os.listdir(src)` loop of `relink_tree`, skipping
version-control metadata and threading the destination listing and the
logged warnings. -/
def relinkList (yamlLoad : String → Yaml) (srcPath dstPath : List String)
    (config : Yaml) (entries : List (String × SrcEntry))
    (dst : List (String × DstEntry)) :
    Except RelinkError (List (String × DstEntry) × List (List String)) :=
  match entries with
  | [] => .ok (dst, [])
  | (name, se) :: rest =>
    if skipNames.contains name then
      relinkList yamlLoad srcPath dstPath config rest dst
    else
      match relinkOne yamlLoad srcPath dstPath config name se dst with
      | .error e => .error e
      | .ok (dst1, w1) =>
        match relinkList yamlLoad srcPath dstPath config rest dst1 with
        | .error e => .error e
        | .ok (dst2, w2) => .ok (dst2, w1 ++ w2)
termination_by 2 * sizeOf entries
decreasing_by all_goals simp_wf <;> omega

end

/-- `relink_tree(src, dst)`: read the destination's folder config once,
then process every source entry in listing order. -/
def relink_tree (yamlLoad : String → Yaml) (srcPath dstPath : List String)
    (src : List (String × SrcEntry)) (dst : List (String × DstEntry)) :
    Except RelinkError (List (String × DstEntry) × List (List String)) :=
  relinkList yamlLoad srcPath dstPath (get_folder_config yamlLoad dst) src dst

/-- A YAML parser stub for witnesses: every document is the empty
mapping. -/
def wYaml : String → Yaml := fun _ => .dict none

/-- A YAML parser stub that parses the empty document to `null` (what
PyYAML does) and anything else to the empty mapping. -/
def wYamlNull : String → Yaml := fun s => if s = "" then .null else .dict none

/-- A filesystem for the descriptor-generation witness. -/
def wVerFs : Fs := fun p =>
  if p = "verification/envs/py3/Dockerenv" then some "RUN prepare \x7b\x7benv\x7d\x7d"
  else if p = "verification/envs/js/Dockerenv" then some "RUN build \x7b\x7benv\x7d\x7d"
  else if p = "verification/Dockertemplate" then some "FROM base\n\x7b\x7benv_instructions\x7d\x7d\nCMD run"
  else if p = "verification/Dockerfile" then some "stale"
  else none

/-- The fragment contents served by `wVerFs`. -/
def wFrag : String → String := fun env =>
  if env = "py3" then "RUN prepare \x7b\x7benv\x7d\x7d"
  else "RUN build \x7b\x7benv\x7d\x7d"

/-! Basic lemmas about the string model. -/

theorem splitOnce_append_cons (c : Char) (a b : PyStr) (ha : a.contains c = false) :
    splitOnce c (a ++ c :: b) = some (a, b) := by
  induction a with
  | nil => simp [splitOnce]
  | cons x xs ih =>
    simp only [List.contains_cons, Bool.or_eq_false_iff] at ha
    have hx : ¬ x = c := by
      intro h; subst h; simp [beq_self_eq_true] at ha
    simp [splitOnce, hx, ih ha.2]

theorem splitOnce_eq_none_iff (c : Char) (s : PyStr) :
    splitOnce c s = none ↔ s.contains c = false := by
  induction s with
  | nil => simp [splitOnce]
  | cons x xs ih =>
    by_cases hx : x = c
    · subst hx; simp [splitOnce]
    · simp [splitOnce, hx, ih, Option.map_eq_none, List.contains_cons]
      intro _
      exact Ne.symm hx

theorem pyReadline_of_no_newline (s : PyStr) (h : s.contains '\n' = false) :
    pyReadline s = s := by
  induction s with
  | nil => rfl
  | cons x xs ih =>
    simp only [List.contains_cons, Bool.or_eq_false_iff] at h
    have hx : ¬ x = '\n' := by
      intro hxx; subst hxx; simp [beq_self_eq_true] at h
    simp [pyReadline, hx, ih h.2]

theorem contains_append_cons (c : Char) (a b : PyStr) :
    (a ++ c :: b).contains c = true := by
  induction a with
  | nil => simp [List.contains_cons]
  | cons x xs ih => simp [List.contains_cons, ih]

/-- C2: For every schema line of the form `prefix;url@ref`, parsing splits the
part after the first `;` (stripped of surrounding whitespace) on the first `@`;
if the portion after the `@` contains no `:`, the result is the stripped
`(url, ref)` pair; otherwise the whole stripped string after `;` is the URL
and the ref is absent (`none`). -/
theorem C2_schema_line_url_ref_parsing
    (hdr rawUrl u r : PyStr)
    (hline : (hdr ++ ';' :: rawUrl).contains '\n' = false)
    (hhdr : hdr.contains ';' = false)
    (hstrip : pyStrip rawUrl = u ++ '@' :: r)
    (hu : u.contains '@' = false) :
    get_base_repository (some (hdr ++ ';' :: rawUrl)) =
      .ok (some (if ':' ∈ r then
                    RepoRef.mk (u ++ '@' :: r) none
                  else
                    RepoRef.mk (pyStrip u) (some (pyStrip r)))) := by
  have hread : pyReadline (hdr ++ ';' :: rawUrl) = hdr ++ ';' :: rawUrl :=
    pyReadline_of_no_newline _ hline
  have hne : hdr ++ ';' :: rawUrl ≠ [] := by
    intro h
    exact absurd (List.append_eq_nil.mp h).2 (by simp)
  have hsplit : splitOnce ';' (hdr ++ ';' :: rawUrl) = some (hdr, rawUrl) :=
    splitOnce_append_cons ';' hdr rawUrl hhdr
  have hat : pyContains (pyStrip rawUrl) '@' = true := by
    rw [hstrip]; exact contains_append_cons '@' u r
  have hsplit2 : splitOnce '@' (u ++ '@' :: r) = some (u, r) :=
    splitOnce_append_cons '@' u r hu
  simp only [get_base_repository, hread, hne, if_false, hsplit, hat, if_true,
    pyContains, hstrip, hsplit2]
  by_cases hr : ':' ∈ r <;> simp [hr]

/-- Witness for C2 at the concrete line
`python;https://github.com/CheckiO/mission-template@master`. -/
theorem C2_schema_line_url_ref_parsing_witness :
    get_base_repository
        (some ("python;https://github.com/CheckiO/mission-template@master".toList)) =
      .ok (some (RepoRef.mk "https://github.com/CheckiO/mission-template".toList
                  (some "master".toList))) := by
  have h := C2_schema_line_url_ref_parsing
    ("python".toList) ("https://github.com/CheckiO/mission-template@master".toList)
    ("https://github.com/CheckiO/mission-template".toList) ("master".toList)
    (by decide) (by decide) (by decide) (by decide)
  simpa using h

/-- C3: reading a source's schema fails (with `MissionFilesException`,
aborting compilation) iff the schema file exists and its first line is empty
or lacks the `;`-delimited second field; a missing schema file yields
`.ok none` ("no ancestor"), not an error. -/
theorem C3_schema_failure_iff_present_and_malformed (schemaFile : Option PyStr) :
    ((∃ e, get_base_repository schemaFile = .error e) ↔
      (∃ c, schemaFile = some c ∧
        (pyReadline c = [] ∨ (pyReadline c).contains ';' = false)))
    ∧ get_base_repository none = (.ok none : Except MissionFilesException (Option RepoRef)) := by
  refine ⟨?_, rfl⟩
  cases schemaFile with
  | none =>
    simp [get_base_repository]
  | some c =>
    constructor
    · rintro ⟨e, he⟩
      refine ⟨c, rfl, ?_⟩
      by_cases hnil : pyReadline c = []
      · exact Or.inl hnil
      · right
        rw [← splitOnce_eq_none_iff]
        by_contra hsome
        rcases Option.ne_none_iff_exists'.mp hsome with ⟨parts, hparts⟩
        simp only [get_base_repository, hnil, if_false, hparts] at he
        by_cases hat : pyContains (pyStrip parts.2) '@' = true
        · simp only [hat, if_true] at he
          cases hsp : splitOnce '@' (pyStrip parts.2) with
          | none => simp [hsp] at he
          | some rp =>
            simp only [hsp] at he
            by_cases hcol : pyContains rp.2 ':' = true
            · simp [hcol] at he
            · simp [hcol] at he
        · simp [hat] at he
    · rintro ⟨c', hc', hbad⟩
      cases hc'
      cases hbad with
      | inl hnil =>
        exact ⟨.schemaFileIsEmpty, by simp [get_base_repository, hnil]⟩
      | inr hnosep =>
        have hnone : splitOnce ';' (pyReadline c) = none :=
          (splitOnce_eq_none_iff ';' (pyReadline c)).mpr hnosep
        by_cases hnil : pyReadline c = []
        · exact ⟨.schemaFileIsEmpty, by simp [get_base_repository, hnil]⟩
        · exact ⟨.schemaContentIsWrong, by simp [get_base_repository, hnil, hnone]⟩

/-- Witness for C3 at a schema file whose single line has no `;`. -/
theorem C3_schema_failure_iff_present_and_malformed_witness :
    (∃ e, get_base_repository (some ("no separator here".toList)) = .error e) ∧
    get_base_repository (none : Option PyStr) =
      (.ok none : Except MissionFilesException (Option RepoRef)) := by
  refine ⟨?_, (C3_schema_failure_iff_present_and_malformed none).2⟩
  exact (C3_schema_failure_iff_present_and_malformed
      (some ("no separator here".toList))).1.mpr
    ⟨"no separator here".toList, rfl, Or.inr (by decide)⟩

/-! Lemmas about the overlay fold and the temporary-directory lifecycle. -/

theorem overlay_foldl_apply (layers : List Fs) (working : Fs) (p : Path) :
    (layers.foldl (fun w l => recursive_overwrite l w) working) p =
      match (layers.filterMap (fun l => l p)).getLast? with
      | some c => some c
      | none => working p := by
  induction layers using List.reverseRecOn with
  | nil => simp
  | append_singleton xs x ih =>
    rw [List.foldl_append, List.foldl_cons, List.foldl_nil, List.filterMap_append]
    cases hx : x p with
    | some c =>
      simp [recursive_overwrite, hx, List.filterMap, List.getLast?_concat]
    | none =>
      have hnil : List.filterMap (fun l => l p) [x] = [] := by
        simp [List.filterMap, hx]
      rw [hnil, List.append_nil]
      simpa [recursive_overwrite, hx] using ih

theorem mergeFold_fst (l : List (Nat × Fs)) (w : Fs) (s : TmpState) :
    (l.foldl (fun (acc : Fs × TmpState) p =>
        (recursive_overwrite p.2 acc.1, rmtree p.1 acc.2)) (w, s)).1 =
      (l.map Prod.snd).foldl (fun w f => recursive_overwrite f w) w := by
  induction l generalizing w s with
  | nil => rfl
  | cons x xs ih => simpa [List.foldl_cons] using ih _ _

theorem mergeFold_snd (l : List (Nat × Fs)) (w : Fs) (s : TmpState) :
    (l.foldl (fun (acc : Fs × TmpState) p =>
        (recursive_overwrite p.2 acc.1, rmtree p.1 acc.2)) (w, s)).2 =
      (l.map Prod.fst).foldl (fun s d => rmtree d s) s := by
  induction l generalizing w s with
  | nil => rfl
  | cons x xs ih => simpa [List.foldl_cons] using ih _ _

theorem rmtreeFold (ds : List Nat) (s : TmpState) :
    ds.foldl (fun s d => rmtree d s) s =
      ⟨s.next, ds.foldl (fun (lv : List Nat) d => lv.erase d) s.live⟩ := by
  induction ds generalizing s with
  | nil => rfl
  | cons d ds ih => simpa [List.foldl_cons, rmtree] using ih _

theorem eraseFold : ∀ (ds base : List Nat), ds.Nodup → (∀ d ∈ ds, d ∉ base) →
    ds.reverse.foldl (fun (l : List Nat) d => l.erase d) (base ++ ds) = base := by
  intro ds
  induction ds with
  | nil => intro base _ _; simp
  | cons d ds ih =>
    intro base hnd hdisj
    rw [List.reverse_cons, List.foldl_append, List.foldl_cons, List.foldl_nil]
    have h1 : base ++ d :: ds = (base ++ [d]) ++ ds := by simp
    have h2 : ∀ x ∈ ds, x ∉ base ++ [d] := by
      intro x hx
      simp only [List.mem_append, List.mem_singleton]
      rintro (hb | hd)
      · exact hdisj x (List.mem_cons_of_mem d hx) hb
      · subst hd
        exact (List.nodup_cons.mp hnd).1 hx
    rw [h1, ih (base ++ [d]) (List.Nodup.of_cons hnd) h2]
    rw [List.erase_append_right _ (hdisj d (List.mem_cons_self d ds))]
    simp

theorem downloadLoop_none (gB : Fs → Except CompileError (Option Repo))
    (gP : Repo → Except CompileError Fs) (fuel : Nat) (acc : List (Nat × Fs))
    (st : TmpState) :
    downloadLoop gB gP fuel none acc st = (.ok acc, st) := by
  cases fuel <;> rfl

theorem downloadLoop_pullErr (gB : Fs → Except CompileError (Option Repo))
    (gP : Repo → Except CompileError Fs) (fuel : Nat) (repo : Repo)
    (acc : List (Nat × Fs)) (st : TmpState) (e : CompileError)
    (h : gP repo = .error e) :
    downloadLoop gB gP (fuel + 1) (some repo) acc st = (.error e, (mkdtemp st).2) := by
  simp [downloadLoop, h]

theorem downloadLoop_schemaErr (gB : Fs → Except CompileError (Option Repo))
    (gP : Repo → Except CompileError Fs) (fuel : Nat) (repo : Repo)
    (acc : List (Nat × Fs)) (st : TmpState) (src : Fs) (e : CompileError)
    (h1 : gP repo = .ok src) (h2 : gB src = .error e) :
    downloadLoop gB gP (fuel + 1) (some repo) acc st = (.error e, (mkdtemp st).2) := by
  simp [downloadLoop, h1, h2]

theorem downloadLoop_step (gB : Fs → Except CompileError (Option Repo))
    (gP : Repo → Except CompileError Fs) (fuel : Nat) (repo : Repo)
    (acc : List (Nat × Fs)) (st : TmpState) (src : Fs) (nextRepo : Option Repo)
    (h1 : gP repo = .ok src) (h2 : gB src = .ok nextRepo) :
    downloadLoop gB gP (fuel + 1) (some repo) acc st =
      downloadLoop gB gP fuel nextRepo (acc ++ [((mkdtemp st).1, src)]) (mkdtemp st).2 := by
  simp [downloadLoop, h1, h2]

theorem download_base_repositories_gbErr (gB : Fs → Except CompileError (Option Repo))
    (gP : Repo → Except CompileError Fs) (fuel : Nat) (src : Fs) (st : TmpState)
    (e : CompileError) (h : gB src = .error e) :
    download_base_repositories gB gP fuel src st = (.error e, st) := by
  simp [download_base_repositories, h]

theorem download_base_repositories_gbOk (gB : Fs → Except CompileError (Option Repo))
    (gP : Repo → Except CompileError Fs) (fuel : Nat) (src : Fs) (st : TmpState)
    (r : Option Repo) (h : gB src = .ok r) :
    download_base_repositories gB gP fuel src st = downloadLoop gB gP fuel r [] st := by
  simp [download_base_repositories, h]

theorem compile_from_files_dlErr (gB : Fs → Except CompileError (Option Repo))
    (gP : Repo → Except CompileError Fs) (fuel : Nat) (src working : Fs)
    (st st1 : TmpState) (e : CompileError)
    (h : download_base_repositories gB gP fuel src st = (.error e, st1)) :
    compile_from_files gB gP fuel src working st = (.error e, st1) := by
  simp [compile_from_files, h]

theorem compile_from_files_dlOk (gB : Fs → Except CompileError (Option Repo))
    (gP : Repo → Except CompileError Fs) (fuel : Nat) (src working : Fs)
    (st st1 : TmpState) (repos : List (Nat × Fs))
    (h : download_base_repositories gB gP fuel src st = (.ok repos, st1)) :
    compile_from_files gB gP fuel src working st =
      (.ok (recursive_overwrite src
        (repos.reverse.foldl (fun (acc : Fs × TmpState) p =>
          (recursive_overwrite p.2 acc.1, rmtree p.1 acc.2)) (working, st1)).1),
       (repos.reverse.foldl (fun (acc : Fs × TmpState) p =>
          (recursive_overwrite p.2 acc.1, rmtree p.1 acc.2)) (working, st1)).2) := by
  simp [compile_from_files, h]

theorem compile_from_git_pullErr (gB : Fs → Except CompileError (Option Repo))
    (gP : Repo → Except CompileError Fs) (fuel : Nat) (repo : Repo)
    (working : Fs) (st : TmpState) (e : CompileError) (h : gP repo = .error e) :
    compile_from_git gB gP fuel repo working st =
      (.error e, rmtree (mkdtemp st).1 (mkdtemp st).2) := by
  simp [compile_from_git, h]

theorem compile_from_git_pullOk (gB : Fs → Except CompileError (Option Repo))
    (gP : Repo → Except CompileError Fs) (fuel : Nat) (repo : Repo)
    (working : Fs) (st : TmpState) (src : Fs) (h : gP repo = .ok src) :
    compile_from_git gB gP fuel repo working st =
      ((compile_from_files gB gP fuel src working (mkdtemp st).2).1,
       rmtree (mkdtemp st).1 (compile_from_files gB gP fuel src working (mkdtemp st).2).2) := by
  simp [compile_from_git, h]

theorem downloadLoop_live (gB : Fs → Except CompileError (Option Repo))
    (gP : Repo → Except CompileError Fs) :
    ∀ (fuel : Nat) (r : Option Repo) (acc : List (Nat × Fs)) (st : TmpState),
      ∃ ds, (downloadLoop gB gP fuel r acc st).2.live = st.live ++ ds ∧
        (∀ d ∈ ds, st.next ≤ d) ∧ st.next ≤ (downloadLoop gB gP fuel r acc st).2.next := by
  intro fuel
  induction fuel with
  | zero =>
    intro r acc st
    cases r with
    | none => exact ⟨[], by rw [downloadLoop_none]; simp, by simp, le_of_eq (by rw [downloadLoop_none])⟩
    | some repo => exact ⟨[], by simp [downloadLoop], by simp, le_of_eq (by simp [downloadLoop])⟩
  | succ fuel ih =>
    intro r acc st
    cases r with
    | none => exact ⟨[], by rw [downloadLoop_none]; simp, by simp, le_of_eq (by rw [downloadLoop_none])⟩
    | some repo =>
      cases hgp : gP repo with
      | error e =>
        refine ⟨[st.next], ?_, ?_, ?_⟩
        · rw [downloadLoop_pullErr gB gP fuel repo acc st e hgp]; simp [mkdtemp]
        · intro d hd
          simp only [List.mem_singleton] at hd
          exact le_of_eq hd.symm
        · rw [downloadLoop_pullErr gB gP fuel repo acc st e hgp]; simp [mkdtemp]
      | ok src =>
        cases hgb : gB src with
        | error e =>
          refine ⟨[st.next], ?_, ?_, ?_⟩
          · rw [downloadLoop_schemaErr gB gP fuel repo acc st src e hgp hgb]; simp [mkdtemp]
          · intro d hd
            simp only [List.mem_singleton] at hd
            exact le_of_eq hd.symm
          · rw [downloadLoop_schemaErr gB gP fuel repo acc st src e hgp hgb]; simp [mkdtemp]
        | ok nextRepo =>
          obtain ⟨ds1, h1, h2, h3⟩ :=
            ih nextRepo (acc ++ [((mkdtemp st).1, src)]) (mkdtemp st).2
          rw [downloadLoop_step gB gP fuel repo acc st src nextRepo hgp hgb]
          refine ⟨st.next :: ds1, ?_, ?_, ?_⟩
          · rw [h1]; simp [mkdtemp]
          · intro d hd
            rcases List.mem_cons.mp hd with h | h
            · exact le_of_eq h.symm
            · exact le_trans (Nat.le_succ _) (h2 d h)
          · exact le_trans (Nat.le_succ _) h3

theorem downloadLoop_ok (gB : Fs → Except CompileError (Option Repo))
    (gP : Repo → Except CompileError Fs) :
    ∀ (fuel : Nat) (r : Option Repo) (acc : List (Nat × Fs)) (st : TmpState)
      (repos : List (Nat × Fs)) (st' : TmpState),
      downloadLoop gB gP fuel r acc st = (.ok repos, st') →
      ∃ ds, repos.map Prod.fst = acc.map Prod.fst ++ ds ∧ st'.live = st.live ++ ds ∧
        ds.Nodup ∧ (∀ d ∈ ds, st.next ≤ d) ∧ st.next ≤ st'.next := by
  intro fuel
  induction fuel with
  | zero =>
    intro r acc st repos st' h
    cases r with
    | none =>
      rw [downloadLoop_none] at h
      simp only [Prod.mk.injEq, Except.ok.injEq] at h
      exact ⟨[], by simp [← h.1], by simp [← h.2], List.nodup_nil, by simp,
        le_of_eq (by rw [← h.2])⟩
    | some repo => simp [downloadLoop] at h
  | succ fuel ih =>
    intro r acc st repos st' h
    cases r with
    | none =>
      rw [downloadLoop_none] at h
      simp only [Prod.mk.injEq, Except.ok.injEq] at h
      exact ⟨[], by simp [← h.1], by simp [← h.2], List.nodup_nil, by simp,
        le_of_eq (by rw [← h.2])⟩
    | some repo =>
      cases hgp : gP repo with
      | error e =>
        rw [downloadLoop_pullErr gB gP fuel repo acc st e hgp] at h
        simp at h
      | ok src =>
        cases hgb : gB src with
        | error e =>
          rw [downloadLoop_schemaErr gB gP fuel repo acc st src e hgp hgb] at h
          simp at h
        | ok nextRepo =>
          rw [downloadLoop_step gB gP fuel repo acc st src nextRepo hgp hgb] at h
          obtain ⟨ds1, h1, h2, h3, h4, h5⟩ :=
            ih nextRepo (acc ++ [((mkdtemp st).1, src)]) (mkdtemp st).2 repos st' h
          refine ⟨st.next :: ds1, ?_, ?_, ?_, ?_, ?_⟩
          · rw [h1]; simp [mkdtemp]
          · rw [h2]; simp [mkdtemp]
          · refine List.nodup_cons.mpr ⟨?_, h3⟩
            intro hmem
            have := h4 st.next hmem
            simp [mkdtemp] at this
          · intro d hd
            rcases List.mem_cons.mp hd with hh | hh
            · exact le_of_eq hh.symm
            · exact le_trans (Nat.le_succ _) (h4 d hh)
          · exact le_trans (Nat.le_succ _) h5

theorem compile_from_files_ok_clean (gB : Fs → Except CompileError (Option Repo))
    (gP : Repo → Except CompileError Fs) (fuel : Nat) (src working : Fs)
    (st : TmpState) (hwf : TmpWF st) (w : Fs) (st2 : TmpState)
    (h : compile_from_files gB gP fuel src working st = (.ok w, st2)) :
    st2.live = st.live := by
  cases hdl : download_base_repositories gB gP fuel src st with
  | mk res st1 =>
    cases res with
    | error e =>
      rw [compile_from_files_dlErr gB gP fuel src working st st1 e hdl] at h
      simp at h
    | ok repos =>
      rw [compile_from_files_dlOk gB gP fuel src working st st1 repos hdl] at h
      simp only [Prod.mk.injEq] at h
      cases hgb : gB src with
      | error e =>
        rw [download_base_repositories_gbErr gB gP fuel src st e hgb] at hdl
        simp at hdl
      | ok r =>
        rw [download_base_repositories_gbOk gB gP fuel src st r hgb] at hdl
        obtain ⟨ds, hds1, hds2, hds3, hds4, _⟩ :=
          downloadLoop_ok gB gP fuel r [] st repos st1 hdl
        simp only [List.map_nil, List.nil_append] at hds1
        have hdisj : ∀ d ∈ ds, d ∉ st.live := by
          intro d hd hmem
          exact absurd (hwf d hmem) (not_lt.mpr (hds4 d hd))
        have hsnd := mergeFold_snd repos.reverse working st1
        have hmap : repos.reverse.map Prod.fst = ds.reverse := by
          rw [List.map_reverse, hds1]
        rw [hsnd, rmtreeFold, hmap, hds2] at h
        rw [← h.2, eraseFold ds st.live hds3 hdisj]

theorem compile_from_files_live (gB : Fs → Except CompileError (Option Repo))
    (gP : Repo → Except CompileError Fs) (fuel : Nat) (src working : Fs)
    (st : TmpState) (hwf : TmpWF st) :
    ∃ extra, (compile_from_files gB gP fuel src working st).2.live = st.live ++ extra ∧
      ∀ d ∈ extra, st.next ≤ d := by
  cases hdl : download_base_repositories gB gP fuel src st with
  | mk res st1 =>
    cases res with
    | ok repos =>
      refine ⟨[], ?_, by simp⟩
      obtain ⟨w2, st2, hpair⟩ :
          ∃ w2 st2, compile_from_files gB gP fuel src working st = (.ok w2, st2) := by
        rw [compile_from_files_dlOk gB gP fuel src working st st1 repos hdl]
        exact ⟨_, _, rfl⟩
      rw [hpair]
      simpa using compile_from_files_ok_clean gB gP fuel src working st hwf w2 st2 hpair
    | error e =>
      rw [compile_from_files_dlErr gB gP fuel src working st st1 e hdl]
      cases hgb : gB src with
      | error e' =>
        rw [download_base_repositories_gbErr gB gP fuel src st e' hgb] at hdl
        simp only [Prod.mk.injEq] at hdl
        exact ⟨[], by simp [← hdl.2], by simp⟩
      | ok r =>
        rw [download_base_repositories_gbOk gB gP fuel src st r hgb] at hdl
        obtain ⟨ds, h1, h2, h3⟩ := downloadLoop_live gB gP fuel r [] st
        rw [hdl] at h1
        exact ⟨ds, h1, h2⟩

theorem compile_from_git_leaf_removed (gB : Fs → Except CompileError (Option Repo))
    (gP : Repo → Except CompileError Fs) (fuel : Nat) (repo : Repo)
    (working : Fs) (st : TmpState) (hwf : TmpWF st) :
    st.next ∉ (compile_from_git gB gP fuel repo working st).2.live := by
  have hnotlive : st.next ∉ st.live := fun hmem => absurd (hwf st.next hmem) (lt_irrefl _)
  cases hgp : gP repo with
  | error e =>
    rw [compile_from_git_pullErr gB gP fuel repo working st e hgp]
    simp only [rmtree, mkdtemp]
    rw [List.erase_append_right _ hnotlive]
    simp [hnotlive, List.erase_cons_head]
  | ok src =>
    rw [compile_from_git_pullOk gB gP fuel repo working st src hgp]
    have hwf1 : TmpWF (mkdtemp st).2 := by
      intro d hd
      simp only [mkdtemp, List.mem_append, List.mem_singleton] at hd
      rcases hd with hh | hh
      · exact lt_trans (hwf d hh) (Nat.lt_succ_self _)
      · simp [mkdtemp, hh, Nat.lt_succ_self]
    obtain ⟨extra, hex1, hex2⟩ :=
      compile_from_files_live gB gP fuel src working (mkdtemp st).2 hwf1
    simp only [rmtree]
    rw [hex1]
    simp only [mkdtemp] at hex2 ⊢
    have hnextra : st.next ∉ extra := by
      intro hmem
      exact absurd (hex2 st.next hmem) (by simp)
    rw [List.append_assoc, List.erase_append_right _ hnotlive]
    simp only [List.singleton_append, List.erase_cons_head]
    simp only [List.mem_append]
    rintro (hh | hh)
    · exact hnotlive hh
    · exact hnextra hh

/-- C1: `compile_from_files` applies the fetched ancestor snapshots to the
working directory oldest-first (the reverse of discovery order) and the leaf
source last, so for every file defined by more than one layer the final
working-directory content (after the overlay phase) equals the content from
the latest layer in the sequence [ancestors oldest-to-newest, leaf] that
defines that file. -/
theorem C1_overlay_latest_layer_wins
    (gB : Fs → Except CompileError (Option Repo))
    (gP : Repo → Except CompileError Fs) (fuel : Nat)
    (sourceFs working : Fs) (st : TmpState)
    (repos : List (Nat × Fs)) (st1 : TmpState) (p : Path)
    (hdl : download_base_repositories gB gP fuel sourceFs st = (.ok repos, st1))
    (hmulti : 2 ≤ (repos.reverse.map Prod.snd ++ [sourceFs]).countP
        (fun l => (l p).isSome)) :
    ∃ w st2, compile_from_files gB gP fuel sourceFs working st = (.ok w, st2) ∧
      w p = lastDefined (repos.reverse.map Prod.snd ++ [sourceFs]) p := by
  rw [compile_from_files_dlOk gB gP fuel sourceFs working st st1 repos hdl]
  refine ⟨_, _, rfl, ?_⟩
  rw [mergeFold_fst]
  have hsplitfold : recursive_overwrite sourceFs
      ((repos.reverse.map Prod.snd).foldl (fun w f => recursive_overwrite f w) working) =
      (repos.reverse.map Prod.snd ++ [sourceFs]).foldl
        (fun w f => recursive_overwrite f w) working := by
    rw [List.foldl_append, List.foldl_cons, List.foldl_nil]
  rw [hsplitfold, overlay_foldl_apply]
  have hlen : 2 ≤ ((repos.reverse.map Prod.snd ++ [sourceFs]).filterMap
      (fun l => l p)).length := by
    rw [List.length_filterMap_eq_countP]
    exact hmulti
  cases hlast : ((repos.reverse.map Prod.snd ++ [sourceFs]).filterMap
      (fun l => l p)).getLast? with
  | none =>
    rw [List.getLast?_eq_none_iff] at hlast
    rw [hlast] at hlen
    simp at hlen
  | some c =>
    simp only [lastDefined, hlast]

/-- Witness for C1: one ancestor and the leaf both define `f`; the merged
tree holds the leaf's content, the latest layer. -/
theorem C1_overlay_latest_layer_wins_witness :
    ∃ w st2, compile_from_files wGB wGP 2 wLeafFs wEmptyFs ⟨0, []⟩ = (.ok w, st2) ∧
      w "f" = lastDefined ([(0, wAncFs)].reverse.map Prod.snd ++ [wLeafFs]) "f" :=
  C1_overlay_latest_layer_wins wGB wGP 2 wLeafFs wEmptyFs ⟨0, []⟩
    [(0, wAncFs)] ⟨1, [0]⟩ "f" rfl (by decide)

/-- C4 counterexample: with a three-deep chain whose last fetch fails, the
compilation aborts but the two ancestor snapshot directories (`1` and `2`)
created before the failure are still on disk afterwards — they are not
deleted on this failure path (only the leaf directory `0` is). -/
theorem C4_counterexample_ancestor_snapshots_leak :
    (compile_from_git wGB2 wGP2 3 0 wEmptyFs ⟨0, []⟩).1 = .error .sourceUnavailable ∧
    (compile_from_git wGB2 wGP2 3 0 wEmptyFs ⟨0, []⟩).2.live = [1, 2] ∧
    ([1, 2] : List Nat) ≠ [] :=
  ⟨rfl, rfl, by decide⟩

/-- C4 amended: on the success path of `compile_from_files` every ancestor
snapshot directory is deleted (the final set of live temporary directories
equals the initial one), and in repository mode the temporary leaf
directory is deleted on every path, success or failure; but ancestor
snapshots fetched before a failure are not cleaned up (see the
counterexample). -/
theorem C4_amended_success_cleanup_and_leaf_always_deleted
    (gB : Fs → Except CompileError (Option Repo))
    (gP : Repo → Except CompileError Fs) (fuel : Nat)
    (src : Fs) (repo : Repo) (working : Fs) (st : TmpState) (hwf : TmpWF st) :
    (∀ w st2, compile_from_files gB gP fuel src working st = (.ok w, st2) →
      st2.live = st.live)
    ∧ (∀ r st3, compile_from_git gB gP fuel repo working st = (r, st3) →
      st.next ∉ st3.live) := by
  constructor
  · intro w st2 h
    exact compile_from_files_ok_clean gB gP fuel src working st hwf w st2 h
  · intro r st3 h
    have := compile_from_git_leaf_removed gB gP fuel repo working st hwf
    rw [h] at this
    exact this

/-- Witness for C4's amended statement on a concrete successful run. -/
theorem C4_amended_success_cleanup_and_leaf_always_deleted_witness :
    (∃ w st2, compile_from_files wGB wGP 2 wLeafFs wEmptyFs ⟨0, []⟩ = (.ok w, st2) ∧
      st2.live = []) ∧
    (∃ r st3, compile_from_git wGB wGP 2 0 wEmptyFs ⟨0, []⟩ = (r, st3) ∧
      (0 : Nat) ∉ st3.live) := by
  have h := C4_amended_success_cleanup_and_leaf_always_deleted wGB wGP 2 wLeafFs 0
    wEmptyFs ⟨0, []⟩ (by decide)
  exact ⟨⟨_, _, rfl, h.1 _ _ rfl⟩, ⟨_, _, rfl, h.2 _ _ rfl⟩⟩

/-! Descriptor generation and environment filtering. -/

theorem mapM_option_map {α β : Type} (l : List α) (f : α → Option β) (g : α → β)
    (h : ∀ x ∈ l, f x = some (g x)) : l.mapM f = some (l.map g) := by
  induction l with
  | nil => rfl
  | cons x xs ih =>
    rw [List.mapM_cons, h x (List.mem_cons_self x xs),
      ih (fun y hy => h y (List.mem_cons_of_mem x hy))]
    rfl

/-- C5: for every list of active environments, the generated descriptor
equals the root template with the `env_instructions` placeholder replaced
by the per-environment `Dockerenv` fragments joined by newlines in
active-environment order, each fragment with every `env` placeholder
replaced by its environment name; the result is written to
`verification/Dockerfile`, overwriting any existing file, and no other
path changes. -/
theorem C5_make_dockerfile_generates_descriptor
    (pv : String) (active_envs : List String) (fs : Fs)
    (frag : String → String) (mainTpl : String)
    (hfrag : ∀ env ∈ active_envs,
      fs (pjoin (pjoin (pjoin pv "envs") env) DOCKER_ENV_FILENAME) = some (frag env))
    (hmain : fs (pjoin pv DOCKER_MAIN_FILENAME) = some mainTpl) :
    ∃ fs2, make_dockerfile pv active_envs fs = some fs2 ∧
      fs2 (pjoin pv "Dockerfile") =
        some (mainTpl.replace envInstructionsPlaceholder
          (String.intercalate "\n"
            (active_envs.map (fun env => (frag env).replace envPlaceholder env)))) ∧
      (∀ q, q ≠ pjoin pv "Dockerfile" → fs2 q = fs q) := by
  have hm : active_envs.mapM (fun env =>
      (fs (pjoin (pjoin (pjoin pv "envs") env) DOCKER_ENV_FILENAME)).map
        (fun docker_env_content => docker_env_content.replace envPlaceholder env)) =
      some (active_envs.map (fun env => (frag env).replace envPlaceholder env)) := by
    apply mapM_option_map
    intro env henv
    rw [hfrag env henv]
    rfl
  refine ⟨fun q => if q = pjoin pv "Dockerfile" then
      some (mainTpl.replace envInstructionsPlaceholder
        (String.intercalate "\n"
          (active_envs.map (fun env => (frag env).replace envPlaceholder env))))
    else fs q, ?_, ?_, ?_⟩
  · rw [make_dockerfile]
    simp only [hm, hmain]
    rfl
  · simp
  · intro q hq
    simp [hq]

/-- Witness for C5 with active environments `[py3, js]`. -/
theorem C5_make_dockerfile_generates_descriptor_witness :
    ∃ fs2, make_dockerfile "verification" ["py3", "js"] wVerFs = some fs2 ∧
      fs2 (pjoin "verification" "Dockerfile") =
        some (("FROM base\n\x7b\x7benv_instructions\x7d\x7d\nCMD run").replace
          envInstructionsPlaceholder
          (String.intercalate "\n"
            (["py3", "js"].map (fun env => (wFrag env).replace envPlaceholder env)))) ∧
      (∀ q, q ≠ pjoin "verification" "Dockerfile" → fs2 q = wVerFs q) :=
  C5_make_dockerfile_generates_descriptor "verification" ["py3", "js"] wVerFs wFrag
    "FROM base\n\x7b\x7benv_instructions\x7d\x7d\nCMD run" (by decide) (by decide)

/-- C6: the environment filter deletes exactly those subdirectories of
`verification/envs/` whose names are not among the active environments
(the names under `initial/`), and an active name with no corresponding
`envs` subdirectory causes no action and no error. -/
theorem C6_filter_envs_deletes_exactly_inactive
    (initialListing envsListing : List String) :
    (∀ e, e ∈ filter_envs (get_active_envs initialListing) envsListing ↔
        e ∈ envsListing ∧ e ∈ get_active_envs initialListing)
    ∧ (∀ n, n ∈ get_active_envs initialListing → n ∉ envsListing →
        filter_envs (get_active_envs initialListing) envsListing =
          filter_envs ((get_active_envs initialListing).erase n) envsListing) := by
  constructor
  · intro e
    simp [filter_envs, List.mem_filter, List.elem_iff]
  · intro n hn hnot
    unfold filter_envs
    apply List.filter_congr
    intro x hx
    have hne : x ≠ n := fun he => hnot (he ▸ hx)
    have hiff : x ∈ (get_active_envs initialListing).erase n ↔
        x ∈ get_active_envs initialListing :=
      List.mem_erase_of_ne hne
    simp [List.elem_iff, hiff]

/-- Witness for C6: `js` is deleted when only `py3` is active, and an
active `ruby` with no `envs/ruby` changes nothing. -/
theorem C6_filter_envs_deletes_exactly_inactive_witness :
    ("js" ∈ filter_envs (get_active_envs ["py3"]) ["py3", "js"] ↔
      "js" ∈ ["py3", "js"] ∧ "js" ∈ get_active_envs ["py3"])
    ∧ filter_envs (get_active_envs ["py3", "ruby"]) ["py3", "js"] =
        filter_envs ((get_active_envs ["py3", "ruby"]).erase "ruby") ["py3", "js"] :=
  ⟨(C6_filter_envs_deletes_exactly_inactive ["py3"] ["py3", "js"]).1 "js",
   (C6_filter_envs_deletes_exactly_inactive ["py3", "ruby"] ["py3", "js"]).2 "ruby"
     (by decide) (by decide)⟩

/-- C7: the environment filter is idempotent — running `filter_envs`
twice leaves the `envs/` listing as after running it once. -/
theorem C7_filter_envs_idempotent (active_envs envsListing : List String) :
    filter_envs active_envs (filter_envs active_envs envsListing) =
      filter_envs active_envs envsListing := by
  simp [filter_envs, List.filter_filter]

/-! Link-overlay lemmas. -/

theorem lookupEntry_append (name : String) (l1 l2 : List (String × DstEntry)) :
    lookupEntry name (l1 ++ l2) =
      match lookupEntry name l1 with
      | some v => some v
      | none => lookupEntry name l2 := by
  induction l1 with
  | nil => simp [lookupEntry]
  | cons kv rest ih =>
    cases kv with
    | mk k v =>
      by_cases hk : k = name
      · simp [lookupEntry, hk]
      · simp [lookupEntry, hk, ih]

theorem lookupEntry_eraseEntry_self (name : String) (l : List (String × DstEntry)) :
    lookupEntry name (eraseEntry name l) = none := by
  induction l with
  | nil => rfl
  | cons kv rest ih =>
    obtain ⟨k, v⟩ := kv
    by_cases hk : k = name
    · subst hk
      simpa [eraseEntry, List.filter_cons] using ih
    · simpa [eraseEntry, List.filter_cons, bne_iff_ne, hk, lookupEntry] using ih

theorem lookupEntry_eraseEntry_other (name k : String) (l : List (String × DstEntry))
    (hne : k ≠ name) :
    lookupEntry name (eraseEntry k l) = lookupEntry name l := by
  induction l with
  | nil => rfl
  | cons kv rest ih =>
    obtain ⟨k1, v⟩ := kv
    by_cases hk1 : k1 = k
    · subst hk1
      simpa [eraseEntry, List.filter_cons, lookupEntry, hne] using ih
    · by_cases hk2 : k1 = name
      · subst hk2
        simp [eraseEntry, List.filter_cons, bne_iff_ne, hk1, lookupEntry]
      · simpa [eraseEntry, List.filter_cons, bne_iff_ne, hk1, hk2, lookupEntry] using ih

theorem lookupEntry_erase_append_self (name : String) (l : List (String × DstEntry))
    (v : DstEntry) :
    lookupEntry name (eraseEntry name l ++ [(name, v)]) = some v := by
  rw [lookupEntry_append, lookupEntry_eraseEntry_self]
  simp [lookupEntry]

theorem lookupEntry_append_single_other (name k : String) (l : List (String × DstEntry))
    (v : DstEntry) (hne : k ≠ name) :
    lookupEntry name (l ++ [(k, v)]) = lookupEntry name l := by
  rw [lookupEntry_append]
  cases h : lookupEntry name l with
  | some w => rfl
  | none => simp [lookupEntry, hne]

theorem relinkTail_frame (yamlLoad : String → Yaml) (srcPath dstPath : List String)
    (name : String) (se : SrcEntry) (dst dst1 : List (String × DstEntry))
    (w : List (List String)) (other : String) (hne : name ≠ other)
    (h : relinkTail yamlLoad srcPath dstPath name se dst = .ok (dst1, w)) :
    lookupEntry other dst1 = lookupEntry other dst := by
  cases se with
  | file c =>
    simp only [relinkTail, Except.ok.injEq, Prod.mk.injEq] at h
    rw [← h.1, lookupEntry_append_single_other other name dst _ hne]
  | dir ch =>
    simp only [relinkTail] at h
    split at h
    · exact absurd h (by simp)
    · rename_i newCh ws heq
      simp only [Except.ok.injEq, Prod.mk.injEq] at h
      rw [← h.1, lookupEntry_append_single_other other name _ _ hne,
        lookupEntry_eraseEntry_other other name dst hne]

theorem relinkOne_frame (yamlLoad : String → Yaml) (srcPath dstPath : List String)
    (config : Yaml) (name : String) (se : SrcEntry)
    (dst dst1 : List (String × DstEntry)) (w : List (List String)) (other : String)
    (hne : name ≠ other)
    (h : relinkOne yamlLoad srcPath dstPath config name se dst = .ok (dst1, w)) :
    lookupEntry other dst1 = lookupEntry other dst := by
  rw [relinkOne] at h
  split at h
  · split at h
    · split at h
      · split at h
        · exact absurd h (by simp)
        · split at h
          · exact absurd h (by simp)
          · rename_i warned _ dst2 w2 heq
            simp only [Except.ok.injEq, Prod.mk.injEq] at h
            rw [← h.1]
            rw [relinkTail_frame yamlLoad srcPath dstPath name se _ dst2 w2 other hne heq]
            exact lookupEntry_eraseEntry_other other name dst hne
      · exact relinkTail_frame yamlLoad srcPath dstPath name se dst dst1 w other hne h
    · exact absurd h (by simp)
  · exact relinkTail_frame yamlLoad srcPath dstPath name se dst dst1 w other hne h

theorem relinkOne_file_conflict (yamlLoad : String → Yaml)
    (srcPath dstPath : List String) (config : Yaml) (name c d : String)
    (dst : List (String × DstEntry))
    (hlk : lookupEntry name dst = some (DstEntry.file d))
    (hwc : relinkWarnCheck config name = .ok true) :
    relinkOne yamlLoad srcPath dstPath config name (SrcEntry.file c) dst =
      .ok (eraseEntry name dst ++ [(name, .linkFile (srcPath ++ [name]) c)],
           [dstPath ++ [name]]) := by
  rw [relinkOne, hlk]
  simp [isfileD, isfileS, hwc, relinkTail]

theorem relinkOne_assert (yamlLoad : String → Yaml) (srcPath dstPath : List String)
    (config : Yaml) (name : String) (se : SrcEntry) (de : DstEntry)
    (dst : List (String × DstEntry))
    (hlk : lookupEntry name dst = some de)
    (hmis : isfileD de ≠ isfileS se) :
    relinkOne yamlLoad srcPath dstPath config name se dst = .error .assertionError := by
  rw [relinkOne, hlk]
  simp [hmis]

theorem relinkOne_null_typeError (yamlLoad : String → Yaml)
    (srcPath dstPath : List String) (name c d : String)
    (dst : List (String × DstEntry))
    (hlk : lookupEntry name dst = some (DstEntry.file d))
    (hnf : name ≠ ".folder") :
    relinkOne yamlLoad srcPath dstPath Yaml.null name (SrcEntry.file c) dst =
      .error .typeError := by
  rw [relinkOne, hlk]
  simp [isfileD, isfileS, relinkWarnCheck, hnf]

theorem relinkList_frame (yamlLoad : String → Yaml) (srcPath dstPath : List String)
    (config : Yaml) (other : String) :
    ∀ (entries : List (String × SrcEntry)) (dst dst2 : List (String × DstEntry))
      (ws : List (List String)),
      (∀ e ∈ entries, e.1 ≠ other) →
      relinkList yamlLoad srcPath dstPath config entries dst = .ok (dst2, ws) →
      lookupEntry other dst2 = lookupEntry other dst := by
  intro entries
  induction entries with
  | nil =>
    intro dst dst2 ws _ h
    simp only [relinkList, Except.ok.injEq, Prod.mk.injEq] at h
    rw [← h.1]
  | cons kv rest ih =>
    intro dst dst2 ws hall h
    obtain ⟨name, se⟩ := kv
    simp only [relinkList] at h
    split at h
    · exact ih dst dst2 ws (fun e he => hall e (List.mem_cons_of_mem _ he)) h
    · split at h
      · exact absurd h (by simp)
      · rename_i dst1 w1 heq1
        split at h
        · exact absurd h (by simp)
        · rename_i dst2a w2 heq2
          simp only [Except.ok.injEq, Prod.mk.injEq] at h
          have hname : name ≠ other := hall (name, se) (List.mem_cons_self _ _)
          rw [← h.1,
            ih dst1 dst2a w2 (fun e he => hall e (List.mem_cons_of_mem _ he)) heq2,
            relinkOne_frame yamlLoad srcPath dstPath config name se dst dst1 w1 other
              hname heq1]

theorem relinkList_skip_frame (yamlLoad : String → Yaml)
    (srcPath dstPath : List String) (config : Yaml) (g : String)
    (hg : skipNames.contains g = true) :
    ∀ (entries : List (String × SrcEntry)) (dst dst2 : List (String × DstEntry))
      (ws : List (List String)),
      relinkList yamlLoad srcPath dstPath config entries dst = .ok (dst2, ws) →
      lookupEntry g dst2 = lookupEntry g dst := by
  intro entries
  induction entries with
  | nil =>
    intro dst dst2 ws h
    simp only [relinkList, Except.ok.injEq, Prod.mk.injEq] at h
    rw [← h.1]
  | cons kv rest ih =>
    intro dst dst2 ws h
    obtain ⟨name, se⟩ := kv
    simp only [relinkList] at h
    split at h
    · exact ih dst dst2 ws h
    · rename_i hskip
      split at h
      · exact absurd h (by simp)
      · rename_i dst1 w1 heq1
        split at h
        · exact absurd h (by simp)
        · rename_i dst2a w2 heq2
          simp only [Except.ok.injEq, Prod.mk.injEq] at h
          have hname : name ≠ g := by
            intro he
            subst he
            exact hskip hg
          rw [← h.1, ih dst1 dst2a w2 heq2,
            relinkOne_frame yamlLoad srcPath dstPath config name se dst dst1 w1 g
              hname heq1]

theorem relinkList_stuck (yamlLoad : String → Yaml) (srcPath dstPath : List String)
    (config : Yaml) (name : String) (se : SrcEntry) (e0 : RelinkError) :
    ∀ (entries : List (String × SrcEntry)) (dst : List (String × DstEntry)),
      (entries.map Prod.fst).Nodup →
      (name, se) ∈ entries →
      skipNames.contains name = false →
      (∀ dst', lookupEntry name dst' = lookupEntry name dst →
        relinkOne yamlLoad srcPath dstPath config name se dst' = .error e0) →
      ∀ res, relinkList yamlLoad srcPath dstPath config entries dst ≠ .ok res := by
  intro entries
  induction entries with
  | nil =>
    intro dst _ hmem _ _ res
    exact absurd hmem (List.not_mem_nil _)
  | cons kv rest ih =>
    intro dst hnd hmem hskip hstk res h
    obtain ⟨k, t⟩ := kv
    have hndr : (rest.map Prod.fst).Nodup := (List.nodup_cons.mp hnd).2
    simp only [relinkList] at h
    split at h
    · rename_i hks
      have hmem' : (name, se) ∈ rest := by
        rcases List.mem_cons.mp hmem with he | he
        · exfalso
          have hkn : name = k := congrArg Prod.fst he
          rw [hkn, hks] at hskip
          exact absurd hskip (by decide)
        · exact he
      exact ih dst hndr hmem' hskip hstk res h
    · split at h
      · exact absurd h (by simp)
      · rename_i dst1 w1 heq1
        by_cases hkname : k = name
        · subst hkname
          have hts : t = se := by
            rcases List.mem_cons.mp hmem with he | he
            · exact (congrArg Prod.snd he).symm
            · exfalso
              have : k ∈ rest.map Prod.fst := List.mem_map.mpr ⟨(k, se), he, rfl⟩
              exact (List.nodup_cons.mp hnd).1 this
          rw [hts, hstk dst rfl] at heq1
          exact absurd heq1 (by simp)
        · have hmem' : (name, se) ∈ rest := by
            rcases List.mem_cons.mp hmem with he | he
            · exact absurd (congrArg Prod.fst he).symm hkname
            · exact he
          have hlook : lookupEntry name dst1 = lookupEntry name dst :=
            relinkOne_frame yamlLoad srcPath dstPath config k t dst dst1 w1 name
              hkname heq1
          have hstk1 : ∀ dst', lookupEntry name dst' = lookupEntry name dst1 →
              relinkOne yamlLoad srcPath dstPath config name se dst' = .error e0 :=
            fun dst' hd => hstk dst' (hd.trans hlook)
          split at h
          · exact absurd h (by simp)
          · rename_i dst2a w2 heq2
            exact ih dst1 hndr hmem' hskip hstk1 (dst2a, w2) heq2

theorem relinkList_conflict_success (yamlLoad : String → Yaml)
    (srcPath dstPath : List String) (config : Yaml) (name c d : String)
    (hwc : relinkWarnCheck config name = .ok true) :
    ∀ (entries : List (String × SrcEntry)) (dst dst2 : List (String × DstEntry))
      (ws : List (List String)),
      (entries.map Prod.fst).Nodup →
      (name, SrcEntry.file c) ∈ entries →
      skipNames.contains name = false →
      lookupEntry name dst = some (DstEntry.file d) →
      relinkList yamlLoad srcPath dstPath config entries dst = .ok (dst2, ws) →
      (dstPath ++ [name]) ∈ ws ∧
        lookupEntry name dst2 = some (DstEntry.linkFile (srcPath ++ [name]) c) := by
  intro entries
  induction entries with
  | nil =>
    intro dst dst2 ws _ hmem _ _ _
    exact absurd hmem (List.not_mem_nil _)
  | cons kv rest ih =>
    intro dst dst2 ws hnd hmem hskip hlk h
    obtain ⟨k, t⟩ := kv
    have hndr : (rest.map Prod.fst).Nodup := (List.nodup_cons.mp hnd).2
    simp only [relinkList] at h
    split at h
    · rename_i hks
      have hmem' : (name, SrcEntry.file c) ∈ rest := by
        rcases List.mem_cons.mp hmem with he | he
        · exfalso
          have hkn : name = k := congrArg Prod.fst he
          rw [hkn, hks] at hskip
          exact absurd hskip (by decide)
        · exact he
      exact ih dst dst2 ws hndr hmem' hskip hlk h
    · split at h
      · exact absurd h (by simp)
      · rename_i dst1 w1 heq1
        split at h
        · exact absurd h (by simp)
        · rename_i dst2a w2 heq2
          simp only [Except.ok.injEq, Prod.mk.injEq] at h
          by_cases hkname : k = name
          · subst hkname
            have hts : t = SrcEntry.file c := by
              rcases List.mem_cons.mp hmem with he | he
              · exact (congrArg Prod.snd he).symm
              · exfalso
                have : k ∈ rest.map Prod.fst :=
                  List.mem_map.mpr ⟨(k, SrcEntry.file c), he, rfl⟩
                exact (List.nodup_cons.mp hnd).1 this
            rw [hts, relinkOne_file_conflict yamlLoad srcPath dstPath config k c d dst
              hlk hwc] at heq1
            simp only [Except.ok.injEq, Prod.mk.injEq] at heq1
            have hrestk : ∀ e ∈ rest, e.1 ≠ k := by
              intro e he hek
              have : k ∈ rest.map Prod.fst := List.mem_map.mpr ⟨e, he, hek⟩
              exact (List.nodup_cons.mp hnd).1 this
            have hl2 : lookupEntry k dst2a = lookupEntry k dst1 :=
              relinkList_frame yamlLoad srcPath dstPath config k rest dst1 dst2a w2
                hrestk heq2
            constructor
            · rw [← h.2, ← heq1.2]
              exact List.mem_append_left _ (List.mem_singleton.mpr rfl)
            · rw [← h.1, hl2, ← heq1.1, lookupEntry_erase_append_self]
          · have hmem' : (name, SrcEntry.file c) ∈ rest := by
              rcases List.mem_cons.mp hmem with he | he
              · exact absurd (congrArg Prod.fst he).symm hkname
              · exact he
            have hlook : lookupEntry name dst1 = lookupEntry name dst :=
              relinkOne_frame yamlLoad srcPath dstPath config k t dst dst1 w1 name
                hkname heq1
            have hlk1 : lookupEntry name dst1 = some (DstEntry.file d) := by
              rw [hlook, hlk]
            obtain ⟨hin, hfin⟩ := ih dst1 dst2a w2 hndr hmem' hskip hlk1 heq2
            constructor
            · rw [← h.2]
              exact List.mem_append_right _ hin
            · rw [← h.1]
              exact hfin

/-- C8: during link overlay, for every source file whose name already exists
in the destination as a plain file and is neither `.folder` nor listed in the
destination directory's FolderConfig `replace` set, a conflict warning is
logged (non-fatal: the overlay still succeeds) and afterwards the destination
entry is a symbolic link to the source file; `.git` and `.gitignore`
destination entries are always left untouched. -/
theorem C8_link_overlay_conflict_warning_then_symlink
    (yamlLoad : String → Yaml) (srcPath dstPath : List String)
    (src : List (String × SrcEntry)) (dst dst2 : List (String × DstEntry))
    (ws : List (List String)) (name c d : String)
    (hnd : (src.map Prod.fst).Nodup)
    (hmem : (name, SrcEntry.file c) ∈ src)
    (hskip : skipNames.contains name = false)
    (hnf : name ≠ ".folder")
    (hlk : lookupEntry name dst = some (DstEntry.file d))
    (hrepl : ∀ repl, get_folder_config yamlLoad dst = .dict (some repl) →
      repl.contains name = false)
    (hrel : relink_tree yamlLoad srcPath dstPath src dst = .ok (dst2, ws)) :
    ((dstPath ++ [name]) ∈ ws ∧
      lookupEntry name dst2 = some (DstEntry.linkFile (srcPath ++ [name]) c))
    ∧ (∀ g, skipNames.contains g = true →
        lookupEntry g dst2 = lookupEntry g dst) := by
  rw [relink_tree] at hrel
  have hwc : relinkWarnCheck (get_folder_config yamlLoad dst) name = .ok true := by
    cases hcfg : get_folder_config yamlLoad dst with
    | null =>
      exfalso
      have hstk : ∀ dst', lookupEntry name dst' = lookupEntry name dst →
          relinkOne yamlLoad srcPath dstPath (get_folder_config yamlLoad dst) name
            (SrcEntry.file c) dst' = .error .typeError := by
        intro dst' hd
        rw [hcfg]
        exact relinkOne_null_typeError yamlLoad srcPath dstPath name c d dst'
          (by rw [hd, hlk]) hnf
      exact relinkList_stuck yamlLoad srcPath dstPath _ name (SrcEntry.file c)
        .typeError src dst hnd hmem hskip hstk (dst2, ws) hrel
    | dict o =>
      cases o with
      | none => simp [relinkWarnCheck, hnf]
      | some repl =>
        have hc := hrepl repl hcfg
        have hmemf : name ∉ repl := by
          intro hm
          have hct := List.elem_iff.mpr hm
          simp only [List.contains] at hc
          rw [hct] at hc
          exact absurd hc (by decide)
        simp [relinkWarnCheck, hnf, hmemf]
  constructor
  · exact relinkList_conflict_success yamlLoad srcPath dstPath _ name c d hwc
      src dst dst2 ws hnd hmem hskip hlk hrel
  · intro g hg
    exact relinkList_skip_frame yamlLoad srcPath dstPath _ g hg src dst dst2 ws hrel

/-- Witness for C8: `run.py` exists in the destination as a plain file and is
not in any `replace` set; the overlay succeeds, logs the conflict for
`dst/run.py`, and leaves a symlink to `src/run.py`. -/
theorem C8_link_overlay_conflict_warning_then_symlink_witness :
    ∃ dst2 ws, relink_tree wYaml ["src"] ["dst"]
        [("run.py", SrcEntry.file "print(1)")] [("run.py", DstEntry.file "old")] =
        .ok (dst2, ws) ∧
      (["dst", "run.py"] ∈ ws ∧
        lookupEntry "run.py" dst2 =
          some (DstEntry.linkFile ["src", "run.py"] "print(1)")) := by
  have hrel : relink_tree wYaml ["src"] ["dst"]
      [("run.py", SrcEntry.file "print(1)")] [("run.py", DstEntry.file "old")] =
      .ok ([("run.py", DstEntry.linkFile ["src", "run.py"] "print(1)")],
           [["dst", "run.py"]]) := by
    simp [relink_tree, relinkList, relinkOne, relinkTail, get_folder_config,
      lookupEntry, eraseEntry, relinkWarnCheck, skipNames, isfileD, isfileS, wYaml]
  have h := C8_link_overlay_conflict_warning_then_symlink wYaml ["src"] ["dst"]
    [("run.py", SrcEntry.file "print(1)")] [("run.py", DstEntry.file "old")]
    _ _ "run.py" "print(1)" "old"
    (by decide) (List.mem_singleton.mpr rfl) (by decide) (by decide) rfl
    (by intro repl hcf; simp [get_folder_config, lookupEntry, wYaml] at hcf)
    hrel
  exact ⟨_, _, hrel, h.1⟩

/-- C9: during link overlay, whenever a destination entry exists at a path
where the source has an entry of the other kind (one a plain file, the other
a directory), the loop body fails with the `assert` (StructuralConflict) and
the merge can never succeed. -/
theorem C9_structural_conflict_fatal
    (yamlLoad : String → Yaml) (srcPath dstPath : List String)
    (src : List (String × SrcEntry)) (dst : List (String × DstEntry))
    (name : String) (se : SrcEntry) (de : DstEntry)
    (hnd : (src.map Prod.fst).Nodup)
    (hmem : (name, se) ∈ src)
    (hskip : skipNames.contains name = false)
    (hlk : lookupEntry name dst = some de)
    (hmis : (∃ s ch, de = DstEntry.file s ∧ se = SrcEntry.dir ch) ∨
            (∃ dch s, de = DstEntry.dir dch ∧ se = SrcEntry.file s)) :
    relinkOne yamlLoad srcPath dstPath (get_folder_config yamlLoad dst) name se dst =
      .error .assertionError
    ∧ ∀ res, relink_tree yamlLoad srcPath dstPath src dst ≠ .ok res := by
  have hneq : isfileD de ≠ isfileS se := by
    rcases hmis with ⟨s, ch, hde, hse⟩ | ⟨dch, s, hde, hse⟩ <;> subst hde <;>
      subst hse <;> simp [isfileD, isfileS]
  have hone : ∀ dst', lookupEntry name dst' = lookupEntry name dst →
      relinkOne yamlLoad srcPath dstPath (get_folder_config yamlLoad dst) name se
        dst' = .error .assertionError := by
    intro dst' hd
    exact relinkOne_assert yamlLoad srcPath dstPath _ name se de dst'
      (by rw [hd, hlk]) hneq
  refine ⟨hone dst rfl, ?_⟩
  intro res
  rw [relink_tree]
  exact relinkList_stuck yamlLoad srcPath dstPath _ name se .assertionError src dst
    hnd hmem hskip hone res

/-- Witness for C9: source directory `x` meets a destination plain file `x`. -/
theorem C9_structural_conflict_fatal_witness :
    relinkOne wYaml ["s"] ["d"]
        (get_folder_config wYaml [("x", DstEntry.file "a")]) "x" (SrcEntry.dir [])
        [("x", DstEntry.file "a")] = .error .assertionError
    ∧ ∀ res, relink_tree wYaml ["s"] ["d"] [("x", SrcEntry.dir [])]
        [("x", DstEntry.file "a")] ≠ .ok res :=
  C9_structural_conflict_fatal wYaml ["s"] ["d"] [("x", SrcEntry.dir [])]
    [("x", DstEntry.file "a")] "x" (SrcEntry.dir []) (DstEntry.file "a")
    (by decide) (List.mem_singleton.mpr rfl) (by decide) rfl
    (Or.inl ⟨"a", [], rfl, rfl⟩)

/-- C10: when the destination's `.folder` file exists but is empty, so the
YAML parser yields `null`, `get_folder_config` returns that `null` rather
than an empty mapping, and the overlay fails with the `TypeError` as soon as
it must check replace-set membership for an existing destination file. -/
theorem C10_empty_folder_yields_null_then_error
    (yamlLoad : String → Yaml) (srcPath dstPath : List String)
    (src : List (String × SrcEntry)) (dst : List (String × DstEntry))
    (name c d fc : String)
    (hfolder : lookupEntry ".folder" dst = some (DstEntry.file fc))
    (hnull : yamlLoad fc = .null)
    (hnd : (src.map Prod.fst).Nodup)
    (hmem : (name, SrcEntry.file c) ∈ src)
    (hskip : skipNames.contains name = false)
    (hnf : name ≠ ".folder")
    (hlk : lookupEntry name dst = some (DstEntry.file d)) :
    get_folder_config yamlLoad dst = .null
    ∧ relinkOne yamlLoad srcPath dstPath (get_folder_config yamlLoad dst) name
        (SrcEntry.file c) dst = .error .typeError
    ∧ ∀ res, relink_tree yamlLoad srcPath dstPath src dst ≠ .ok res := by
  have hcfg : get_folder_config yamlLoad dst = .null := by
    simp only [get_folder_config, hfolder, hnull]
  have hone : ∀ dst', lookupEntry name dst' = lookupEntry name dst →
      relinkOne yamlLoad srcPath dstPath (get_folder_config yamlLoad dst) name
        (SrcEntry.file c) dst' = .error .typeError := by
    intro dst' hd
    rw [hcfg]
    exact relinkOne_null_typeError yamlLoad srcPath dstPath name c d dst'
      (by rw [hd, hlk]) hnf
  refine ⟨hcfg, hone dst rfl, ?_⟩
  intro res
  rw [relink_tree]
  exact relinkList_stuck yamlLoad srcPath dstPath _ name (SrcEntry.file c)
    .typeError src dst hnd hmem hskip hone res

/-- Witness for C10: an empty `.folder` next to an existing `run.py`. -/
theorem C10_empty_folder_yields_null_then_error_witness :
    get_folder_config wYamlNull
        [(".folder", DstEntry.file ""), ("run.py", DstEntry.file "old")] = .null
    ∧ relinkOne wYamlNull ["s"] ["d"]
        (get_folder_config wYamlNull
          [(".folder", DstEntry.file ""), ("run.py", DstEntry.file "old")])
        "run.py" (SrcEntry.file "new")
        [(".folder", DstEntry.file ""), ("run.py", DstEntry.file "old")] =
        .error .typeError
    ∧ ∀ res, relink_tree wYamlNull ["s"] ["d"] [("run.py", SrcEntry.file "new")]
        [(".folder", DstEntry.file ""), ("run.py", DstEntry.file "old")] ≠
        .ok res :=
  C10_empty_folder_yields_null_then_error wYamlNull ["s"] ["d"]
    [("run.py", SrcEntry.file "new")]
    [(".folder", DstEntry.file ""), ("run.py", DstEntry.file "old")]
    "run.py" "new" "old" "" rfl rfl (by decide) (List.mem_singleton.mpr rfl)
    (by decide) (by decide) rfl

end CheckioDocker
